import Mathlib

set_option maxHeartbeats 2000000
set_option maxRecDepth 4000

/- Shallow embedding of src/consolidate_appointments_all_fields.py.

   Rows are lists of cell strings.  The persisted fingerprint ledger
   (processed_rows.json) is an association list mirroring a Python dict
   from source key to the list of row hashes already delivered; Python
   dicts preserve insertion order and keep keys unique.  External
   spreadsheet calls are abstracted: the rows fetched from a source and
   the success of destination writes become explicit inputs, and the
   destination mutations become an event trace. -/

/-- A spreadsheet row: the ordered cell text values. -/
abbrev Row := List String

/-- The processed-hashes dictionary: source key to the list of row hashes
already delivered. -/
abbrev Ledger := List (String × List String)

/-- Dictionary lookup: the value stored at the first entry carrying the key. -/
def lfind : Ledger → String → Option (List String)
  | [], _ => none
  | (k, v) :: rest, key => if k = key then some v else lfind rest key

/-- Dictionary assignment: replace the value at the first entry carrying the
key, or append a new entry at the end, as Python dict assignment does. -/
def lset : Ledger → String → List String → Ledger
  | [], key, v => [(key, v)]
  | (k, w) :: rest, key, v =>
    if k = key then (key, v) :: rest else (k, w) :: lset rest key v

/-- The hash list recorded for a key; the empty list when the key is absent. -/
def lview (l : Ledger) (k : String) : List String := (lfind l k).getD []

/-- Lines 402-403 and 408-409: lazily create an empty entry for a key that is
not yet present. -/
def lensure (l : Ledger) (k : String) : Ledger :=
  match lfind l k with
  | some _ => l
  | none => lset l k []

/-- The Python pattern l[k].extend(hs), with the entry created when absent. -/
def lextend (l : Ledger) (k : String) (hs : List String) : Ledger :=
  lset l k (lview l k ++ hs)

/-- Lines 449-453: merge every non-empty pending hash list of the current
flush window into the in-memory ledger, in dict iteration order. -/
def mergePending (processed pending : Ledger) : Ledger :=
  pending.foldl (fun acc kv => if kv.2.isEmpty then acc else lextend acc kv.1 kv.2) processed

/-- Line 64: the concatenation of all cell values of a row, with no
separator, as built by the join call inside get_row_hash. -/
def rowStr (row : Row) : String := String.join row

/-- Lines 62-65 get_row_hash: the digest of the joined cell values.  The
digest itself (sha256 hexdigest) is kept as a parameter; the properties
proved below hold for an arbitrary digest function, so in particular for
sha256. -/
def get_row_hash (digest : String → String) (row : Row) : String :=
  digest (rowStr row)

/-- Value of COMPANY_COLUMN_NAME, line 24. -/
def COMPANY_COLUMN_NAME : String := "Company"

/-- Value of URL_COLUMN_NAME, line 25. -/
def URL_COLUMN_NAME : String := "Appointment Spreadsheet:"

/-- Lines 132-137: scan the header row for the exact (stripped) column name,
starting at index i; a later match overwrites an earlier one, and the
result is none exactly when the loop would leave the index at -1. -/
def findColIdx (name : String) : List String → Nat → Option Nat
  | [], _ => none
  | h :: t, i =>
    match findColIdx name t (i + 1) with
    | some j => some j
    | none => if h.trim = name then some i else none

/-- Lines 159-183: turn one data row of the master sheet into a
(url, company) seed, or skip it.  The URL extraction of lines 172-180
(substring tests plus a regular expression search) is taken as an
uninterpreted parameter extractUrl that returns the empty string when no
URL is found in the cell text. -/
def sourceRowSeed (companyIdx urlIdx : Nat) (extractUrl : String → String)
    (row : List String) : Option (String × String) :=
  if row.isEmpty then none
  else if row.length ≤ max companyIdx urlIdx then none
  else
    let company := (row.getD companyIdx "").trim
    let cell := row.getD urlIdx ""
    if company = "" then none
    else if cell = "" then none
    else
      let url := extractUrl cell
      if url = "" then none else some (url, company)

/-- Lines 186-191: drop seeds whose URL was already seen, keeping the first
occurrence and preserving order. -/
def dedupSources : List (String × String) → List String → List (String × String)
  | [], _ => []
  | (url, name) :: rest, seen =>
    if url ∈ seen then dedupSources rest seen
    else (url, name) :: dedupSources rest (url :: seen)

/-- Lines 119-194 get_source_sheet_urls: locate the company and URL columns
in the header row by exact stripped match; if either is absent the whole
catalog is empty; otherwise build the de-duplicated (url, company) list
from the data rows. -/
def get_source_sheet_urls_model (extractUrl : String → String)
    (headers : List String) (values : List (List String)) : List (String × String) :=
  match findColIdx COMPANY_COLUMN_NAME headers 0 with
  | none => []
  | some ci =>
    match findColIdx URL_COLUMN_NAME headers 0 with
    | none => []
    | some ui => dedupSources (values.filterMap (sourceRowSeed ci ui extractUrl)) []

/-- Lines 427-429: pad a new row on the right with empty cells up to the
length of the header row of its own source sheet (Python multiplies the
pad list by a possibly negative count, which truncates at zero exactly as
Nat subtraction does), then append the company display name. -/
def padRow (header row : Row) (companyName : String) : Row :=
  (row ++ List.replicate (header.length - row.length) "") ++ [companyName]

/-- Padding as the spec sentence of claim C4 words it: up to the column
count of the captured destination header (source header plus the appended
company-name column), before the display name is appended.  Kept only to
compare against padRow, the function the code implements. -/
def specPadRow (destHeader row : Row) (companyName : String) : Row :=
  (row ++ List.replicate (destHeader.length - row.length) "") ++ [companyName]

/-- Lines 252-258 read of column A, then lines 271-287: insert count blank
rows at 0-based index start of the destination grid. -/
def insertBlankRows (g : List Row) (start count : Nat) : List Row :=
  g.take start ++ List.replicate count [] ++ g.drop start

/-- Lines 289-296: a values update starting at 0-based row start overwrites
that many existing rows with the given rows. -/
def overwriteRows (g : List Row) (start : Nat) (rows : List Row) : List Row :=
  g.take start ++ rows ++ g.drop (start + rows.length)

/-- Lines 247-296 append_rows, effect on the destination grid when the
external calls succeed: nothing for an empty batch; a direct write starting
at row 2 when the sheet is empty (row 1 stays blank); otherwise insert
len(rows) blank rows right after the header row and write the batch into
them. -/
def append_rows_grid (g : List Row) (rows : List Row) : List Row :=
  if rows.isEmpty then g
  else if g.isEmpty then [[]] ++ rows
  else overwriteRows (insertBlankRows g 1 rows.length) 1 rows

/-- Exception classes that can cross the boundaries modelled here.  In
Python json.JSONDecodeError never escapes load_processed_hashes (it is the
class named by its except clause), so it does not appear. -/
inductive PyExc where
  | httpError
  | unicodeDecodeError
  deriving DecidableEq

/-- Lines 247-299 append_rows, control flow seen by the caller: writeResult
is the combined outcome of the external read, insertDimension batch update
and values update inside the try block.  The except clause at lines 298-299
catches every exception, prints a log line and returns normally, so the
function returns None on failure and on success alike. -/
def append_rows_outcome (writeResult : Except PyExc Unit) : Unit :=
  match writeResult with
  | Except.ok _ => ()
  | Except.error _ => ()

/-- Lines 443-455, the flush tail of main: append_rows is called, then the
pending hashes of the window are merged into processed_hashes and the
result is written to processed_rows.json, without inspecting any write
outcome, because append_rows exposes none.  Result: (in-memory ledger,
persisted file). -/
def flushPersist (writeResult : Except PyExc Unit) (processed pending : Ledger) :
    Ledger × Ledger :=
  let _u := append_rows_outcome writeResult
  let merged := mergePending processed pending
  (merged, merged)

/-- Outcome of reading processed_rows.json the way lines 44-53 do: an
os.path.exists check, then open in text mode and json.load.  The case
jsonDecodeError is a file whose bytes decode as text that is not valid
JSON, where json.load raises json.JSONDecodeError; the case
undecodableBytes is a file whose bytes are not valid UTF-8, where reading
inside json.load raises UnicodeDecodeError, which is not a subclass of
json.JSONDecodeError. -/
inductive FileRead where
  | missing
  | parsed (d : Ledger)
  | jsonDecodeError
  | undecodableBytes
  deriving DecidableEq

/-- Lines 44-53 load_processed_hashes: a missing file yields an empty
dictionary, a json.JSONDecodeError is caught and yields an empty
dictionary, but the except clause names only json.JSONDecodeError, so a
UnicodeDecodeError escapes to the caller. -/
def load_processed_hashes : FileRead → Except PyExc Ledger
  | FileRead.missing => Except.ok []
  | FileRead.parsed d => Except.ok d
  | FileRead.jsonDecodeError => Except.ok []
  | FileRead.undecodableBytes => Except.error PyExc.unicodeDecodeError

/-- Line 369: the sleep taken when the catalog came back empty. -/
def emptyCatalogSleepSeconds : Nat := 4 * 60 * 60

/-- Line 463: the sleep taken after a full pass over a non-empty catalog. -/
def idleSleepSeconds : Nat := 4 * 60 * 60

/-- Lines 411-415: one pass over the data rows of a source; a row is new
when its hash is absent from the persisted set, and every new occurrence is
appended to the newly-found rows and its hash to the pending list. -/
def classify (fp : Row → String) (existing : List String) (data : List Row) :
    List Row × List String :=
  data.foldl
    (fun acc row =>
      if fp row ∈ existing then acc else (acc.1 ++ [row], acc.2 ++ [fp row]))
    ([], [])

/-- One source as the cycle sees it: resolved is false when the URL parse
(lines 382-385) or the gid resolution (lines 387-390) failed; key is the
string joining spreadsheet id and gid (line 401); name the company display
name; fetched the rows returned for the tab, header first (line 393). -/
structure SourceSheet where
  resolved : Bool
  key : String
  name : String
  fetched : List Row
  deriving DecidableEq

/-- The mutable locals of one consolidation cycle of main (lines 364,
372-375), plus the content of processed_rows.json as field file. -/
structure LoopState where
  processed : Ledger
  file : Ledger
  batch : List Row
  headerCaptured : Option Row
  pending : Ledger
  prepared : Bool
  deriving DecidableEq

/-- Observable actions of one cycle: prepare is the header write of
prepare_target_sheet, foundNew the per-source new-row count report of line
422, write the destination write of a batch, persist the save of the
ledger file; write and persist carry the 1-based index of the source after
which they happened. -/
inductive Event where
  | prepare (header : Row)
  | foundNew (i : Nat) (count : Nat)
  | write (i : Nat) (rows : List Row)
  | persist (i : Nat) (file : Ledger)
  deriving DecidableEq

/-- Lines 377-459, the body of the per-source loop of main for the source
at 1-based index i of n, assuming destination writes succeed.  Skipped
sources (unresolved, or fewer than two fetched rows) leave the state
untouched; otherwise the data rows are classified against the persisted
set, new rows are padded and pushed into the batch, and the batch-write
block of lines 433-459 runs only on this path, after the continue
statements of lines 385, 390, 396 and 420. -/
def processSource (fp : Row → String) (n i : Nat) (s : SourceSheet) (st : LoopState) :
    LoopState × List Event :=
  if s.resolved then
    if s.fetched.length ≤ 1 then (st, [])
    else
      let header := s.fetched.headD []
      let data := s.fetched.tail
      let processed := lensure st.processed s.key
      let existing := lview processed s.key
      let nrnh := classify fp existing data
      let pending := lextend (lensure st.pending s.key) s.key nrnh.2
      let st1 : LoopState := { st with processed := processed, pending := pending }
      if nrnh.1.isEmpty then (st1, [])
      else
        let headerCap := st1.headerCaptured.getD (header ++ ["Company Name"])
        let batch := st1.batch ++ nrnh.1.map fun row => padRow header row s.name
        let st2 : LoopState := { st1 with headerCaptured := some headerCap, batch := batch }
        if batch ≠ [] ∧ (i % 25 = 0 ∨ i = n) then
          let evPrep : List Event := if st2.prepared then [] else [Event.prepare headerCap]
          let merged := mergePending st2.processed st2.pending
          ({ st2 with prepared := true, processed := merged, file := merged,
                      batch := [], pending := [] },
           Event.foundNew i nrnh.1.length :: (evPrep ++ [Event.write i batch, Event.persist i merged]))
        else (st2, [Event.foundNew i nrnh.1.length])
  else (st, [])

/-- Run the per-source loop from index i over the remaining sources,
concatenating the event traces. -/
def runFrom (fp : Row → String) (n : Nat) : Nat → List SourceSheet → LoopState → LoopState × List Event
  | _, [], st => (st, [])
  | i, s :: rest, st =>
    let r1 := processSource fp n i s st
    let r2 := runFrom fp n (i + 1) rest r1.1
    (r2.1, r1.2 ++ r2.2)

/-- Lines 364 and 372-375: the cycle starts from the ledger loaded from the
file, with empty batch, no captured header, empty pending map and headers
not yet prepared. -/
def initState (l0 : Ledger) : LoopState :=
  { processed := l0, file := l0, batch := [], headerCaptured := none,
    pending := [], prepared := false }

/-- One full consolidation cycle over the catalog, starting from the ledger
read from processed_rows.json. -/
def runCycle (fp : Row → String) (srcs : List SourceSheet) (l0 : Ledger) :
    LoopState × List Event :=
  runFrom fp srcs.length 1 srcs (initState l0)

/-- Projection of a trace to flush actions: (0, i) for a destination write
after source i, (1, i) for a ledger persistence after source i. -/
def flushTags (evs : List Event) : List (Nat × Nat) :=
  evs.filterMap fun e =>
    match e with
    | Event.write i _ => some (0, i)
    | Event.persist i _ => some (1, i)
    | _ => none

/-- Sixty sources, each resolved, with a one-column header and exactly one
data row that no ledger has seen; source j gets key k(j) and company
name c(j). -/
def scen60 : List SourceSheet :=
  (List.range 60).map fun j =>
    { resolved := true
      key := "k" ++ toString (j + 1)
      name := "c" ++ toString (j + 1)
      fetched := [["h"], ["r" ++ toString (j + 1)]] }

/-- Two sources: the first contributes one new row, the second is resolved
and has a data row whose hash is already in the ledger below. -/
def twoSrcs : List SourceSheet :=
  [ { resolved := true, key := "a", name := "A", fetched := [["h"], ["r"]] },
    { resolved := true, key := "b", name := "B", fetched := [["h"], ["d"]] } ]

/-- Ledger that already holds the hash of the data row of the second
element of twoSrcs, for the digest rowStr. -/
def twoSrcsLedger : Ledger := [("b", ["d"])]

/-- Twenty-seven sources: the first twenty-five each contribute one new
row (so a flush fires at index 25), the twenty-sixth contributes one new
row after that flush, and the last one only carries a row that the ledger
below already holds. -/
def lateSrcs : List SourceSheet :=
  ((List.range 25).map fun j =>
    { resolved := true
      key := "k" ++ toString (j + 1)
      name := "c" ++ toString (j + 1)
      fetched := [["h"], ["r" ++ toString (j + 1)]] : SourceSheet })
  ++ [ { resolved := true, key := "x", name := "X", fetched := [["h"], ["rx"]] },
       { resolved := true, key := "y", name := "Y", fetched := [["h"], ["d"]] } ]

/-- Ledger that already holds the hash of the data row of the last element
of lateSrcs, for the digest rowStr. -/
def lateSrcsLedger : Ledger := [("y", ["d"])]

/-- A single resolved source with one new data row. -/
def oneSrc : List SourceSheet :=
  [ { resolved := true, key := "a", name := "c", fetched := [["h"], ["r"]] } ]

/-- A single resolved source whose fetch returns the same data row twice. -/
def dupSrc : SourceSheet :=
  { resolved := true, key := "a", name := "A", fetched := [["h"], ["r"], ["r"]] }

/- Ledger dictionary lemmas. -/

theorem lfind_lset_self (l : Ledger) (k : String) (v : List String) :
    lfind (lset l k v) k = some v := by
  induction l with
  | nil => simp [lset, lfind]
  | cons kv rest ih =>
    obtain ⟨k2, w⟩ := kv
    by_cases h : k2 = k
    · simp [lset, h, lfind]
    · simp [lset, h, lfind, ih]

theorem lfind_lset_ne (l : Ledger) (k k2 : String) (v : List String) (h : k2 ≠ k) :
    lfind (lset l k v) k2 = lfind l k2 := by
  have hne : k ≠ k2 := fun hk => h hk.symm
  induction l with
  | nil => simp [lset, lfind, hne]
  | cons kv rest ih =>
    obtain ⟨k3, w⟩ := kv
    by_cases h3 : k3 = k
    · subst h3
      simp [lset, lfind, hne]
    · simp [lset, h3, lfind, ih]

theorem lview_lset_self (l : Ledger) (k : String) (v : List String) :
    lview (lset l k v) k = v := by
  simp [lview, lfind_lset_self]

theorem lview_lset_ne (l : Ledger) (k k2 : String) (v : List String) (h : k2 ≠ k) :
    lview (lset l k v) k2 = lview l k2 := by
  simp [lview, lfind_lset_ne l k k2 v h]

theorem lview_lensure (l : Ledger) (k k2 : String) :
    lview (lensure l k) k2 = lview l k2 := by
  unfold lensure
  cases hf : lfind l k with
  | some _ => rfl
  | none =>
    by_cases h : k2 = k
    · subst h
      rw [lview_lset_self]
      simp [lview, hf]
    · exact lview_lset_ne l k k2 [] h

theorem lview_lextend_self (l : Ledger) (k : String) (hs : List String) :
    lview (lextend l k hs) k = lview l k ++ hs := by
  unfold lextend
  exact lview_lset_self l k _

theorem lview_lextend_ne (l : Ledger) (k k2 : String) (hs : List String) (h : k2 ≠ k) :
    lview (lextend l k hs) k2 = lview l k2 :=
  lview_lset_ne l k k2 _ h

theorem mergePending_cons (p : Ledger) (kv : String × List String) (rest : Ledger) :
    mergePending p (kv :: rest)
      = mergePending (if kv.2.isEmpty then p else lextend p kv.1 kv.2) rest := rfl

theorem mem_lview_mergePending_left (q : Ledger) :
    ∀ (p : Ledger) (k : String) (h : String), h ∈ lview p k → h ∈ lview (mergePending p q) k := by
  induction q with
  | nil => intro p k h hm; exact hm
  | cons kv rest ih =>
    intro p k h hm
    rw [mergePending_cons]
    apply ih
    by_cases he : kv.2.isEmpty
    · simpa [he] using hm
    · rw [if_neg he]
      by_cases hk : k = kv.1
      · subst hk
        rw [lview_lextend_self]
        exact List.mem_append_left _ hm
      · rw [lview_lextend_ne _ _ _ _ hk]
        exact hm

theorem mem_lview_mergePending_right (q : Ledger) :
    ∀ (p : Ledger) (k : String) (h : String), h ∈ lview q k → h ∈ lview (mergePending p q) k := by
  induction q with
  | nil => intro p k h hm; simp [lview, lfind] at hm
  | cons kv rest ih =>
    intro p k h hm
    obtain ⟨k2, hs⟩ := kv
    rw [mergePending_cons]
    by_cases hk : k2 = k
    · subst hk
      simp only [lview, lfind, if_pos rfl, Option.getD_some] at hm
      have hne : (hs.isEmpty) = false := by
        cases hs with
        | nil => simp at hm
        | cons a t => rfl
      rw [hne]
      simp only [Bool.false_eq_true, if_false]
      apply mem_lview_mergePending_left
      rw [lview_lextend_self]
      exact List.mem_append_right _ hm
    · have hm2 : h ∈ lview rest k := by
        simpa [lview, lfind, hk] using hm
      apply ih
      exact hm2

/- Classification lemmas. -/

theorem classify_go (fp : Row → String) (existing : List String) :
    ∀ (data : List Row) (acc : List Row × List String),
      data.foldl
        (fun acc row =>
          if fp row ∈ existing then acc else (acc.1 ++ [row], acc.2 ++ [fp row]))
        acc
        = (acc.1 ++ data.filter (fun r => decide (fp r ∉ existing)),
           acc.2 ++ (data.filter (fun r => decide (fp r ∉ existing))).map fp) := by
  intro data
  induction data with
  | nil => intro acc; simp
  | cons row rest ih =>
    intro acc
    by_cases h : fp row ∈ existing
    · simp only [List.foldl_cons, if_pos h]
      rw [ih]
      simp [List.filter_cons, h]
    · simp only [List.foldl_cons, if_neg h]
      rw [ih]
      simp [List.filter_cons, h]

theorem classify_spec (fp : Row → String) (existing : List String) (data : List Row) :
    classify fp existing data
      = (data.filter (fun r => decide (fp r ∉ existing)),
         (data.filter (fun r => decide (fp r ∉ existing))).map fp) := by
  unfold classify
  rw [classify_go]
  simp

theorem classify_eq_nil (fp : Row → String) (existing : List String) (data : List Row)
    (h : ∀ r ∈ data, fp r ∈ existing) : classify fp existing data = ([], []) := by
  rw [classify_spec]
  have hf : data.filter (fun r => decide (fp r ∉ existing)) = [] := by
    rw [List.filter_eq_nil_iff]
    intro a ha
    simp [h a ha]
  rw [hf]
  rfl

theorem classify_cover (fp : Row → String) (existing : List String) (data : List Row)
    (r : Row) (hr : r ∈ data) :
    fp r ∈ existing ∨ fp r ∈ (classify fp existing data).2 := by
  by_cases h : fp r ∈ existing
  · exact Or.inl h
  · refine Or.inr ?_
    rw [classify_spec]
    exact List.mem_map_of_mem fp (List.mem_filter.mpr ⟨hr, by simp [h]⟩)

/- Branch equations for processSource, used by the loop invariants below. -/

theorem processSource_skip_unresolved (fp : Row → String) (n i : Nat) (s : SourceSheet)
    (st : LoopState) (hres : s.resolved = false) :
    processSource fp n i s st = (st, []) := by
  simp [processSource, hres]

theorem processSource_skip_short (fp : Row → String) (n i : Nat) (s : SourceSheet)
    (st : LoopState) (hres : s.resolved = true) (hlen : s.fetched.length ≤ 1) :
    processSource fp n i s st = (st, []) := by
  simp [processSource, hres, hlen]

theorem processSource_noNew (fp : Row → String) (n i : Nat) (s : SourceSheet)
    (st : LoopState) (hres : s.resolved = true) (hlen : ¬ s.fetched.length ≤ 1)
    (hempty : (classify fp (lview st.processed s.key) s.fetched.tail).1 = []) :
    processSource fp n i s st =
      ({ st with processed := lensure st.processed s.key,
                 pending := lextend (lensure st.pending s.key) s.key
                   (classify fp (lview st.processed s.key) s.fetched.tail).2 }, []) := by
  simp [processSource, hres, hlen, lview_lensure, hempty]

theorem processSource_new_noflush (fp : Row → String) (n i : Nat) (s : SourceSheet)
    (st : LoopState) (hres : s.resolved = true) (hlen : ¬ s.fetched.length ≤ 1)
    (hne : (classify fp (lview st.processed s.key) s.fetched.tail).1 ≠ [])
    (hcond : ¬ (i % 25 = 0 ∨ i = n)) :
    processSource fp n i s st =
      ({ st with processed := lensure st.processed s.key,
                 pending := lextend (lensure st.pending s.key) s.key
                   (classify fp (lview st.processed s.key) s.fetched.tail).2,
                 headerCaptured :=
                   some (st.headerCaptured.getD (s.fetched.headD [] ++ ["Company Name"])),
                 batch := st.batch
                   ++ (classify fp (lview st.processed s.key) s.fetched.tail).1.map
                        fun row => padRow (s.fetched.headD []) row s.name },
       [Event.foundNew i (classify fp (lview st.processed s.key) s.fetched.tail).1.length]) := by
  simp [processSource, hres, hlen, lview_lensure, hne, hcond]

theorem processSource_new_flush (fp : Row → String) (n i : Nat) (s : SourceSheet)
    (st : LoopState) (hres : s.resolved = true) (hlen : ¬ s.fetched.length ≤ 1)
    (hne : (classify fp (lview st.processed s.key) s.fetched.tail).1 ≠ [])
    (hcond : i % 25 = 0 ∨ i = n) :
    processSource fp n i s st =
      ({ st with processed := mergePending (lensure st.processed s.key)
                   (lextend (lensure st.pending s.key) s.key
                     (classify fp (lview st.processed s.key) s.fetched.tail).2),
                 file := mergePending (lensure st.processed s.key)
                   (lextend (lensure st.pending s.key) s.key
                     (classify fp (lview st.processed s.key) s.fetched.tail).2),
                 batch := [],
                 headerCaptured :=
                   some (st.headerCaptured.getD (s.fetched.headD [] ++ ["Company Name"])),
                 pending := [], prepared := true },
       Event.foundNew i (classify fp (lview st.processed s.key) s.fetched.tail).1.length ::
         ((if st.prepared then []
           else [Event.prepare (st.headerCaptured.getD (s.fetched.headD [] ++ ["Company Name"]))])
          ++ [Event.write i (st.batch
                ++ (classify fp (lview st.processed s.key) s.fetched.tail).1.map
                     fun row => padRow (s.fetched.headD []) row s.name),
              Event.persist i (mergePending (lensure st.processed s.key)
                (lextend (lensure st.pending s.key) s.key
                  (classify fp (lview st.processed s.key) s.fetched.tail).2))])) := by
  simp [processSource, hres, hlen, lview_lensure, hne, hcond]

theorem runFrom_cons (fp : Row → String) (n i : Nat) (s : SourceSheet)
    (rest : List SourceSheet) (st : LoopState) :
    runFrom fp n i (s :: rest) st
      = ((runFrom fp n (i + 1) rest (processSource fp n i s st).1).1,
         (processSource fp n i s st).2
           ++ (runFrom fp n (i + 1) rest (processSource fp n i s st).1).2) := rfl

/- Small list helpers shared by several proofs. -/

theorem take_len_append (xs ys : List String) : (xs ++ ys).take xs.length = xs := by
  induction xs with
  | nil => simp
  | cons a t ih => simp [ih]

theorem drop_replicate_append (m : Nat) (ys : List Row) :
    (List.replicate m ([] : Row) ++ ys).drop m = ys := by
  induction m with
  | zero => simp
  | succ m ih => simp [List.replicate_succ, ih]

/-- Claim C9, counterexample: the sleep after an empty catalog is not
shorter than the idle sleep after a full pass; both are the same four
hours. -/
theorem retry_sleep_not_shorter :
    ¬ emptyCatalogSleepSeconds < idleSleepSeconds := by decide

/-- Claim C9, amended: the scheduler sleeps the same fixed interval of
14400 seconds (4 hours) after a cycle that found no sources and after a
full pass over a non-empty catalog; the empty-catalog retry interval is
not shorter. -/
theorem retry_sleep_equals_idle_sleep :
    emptyCatalogSleepSeconds = 14400 ∧ idleSleepSeconds = 14400
  ∧ emptyCatalogSleepSeconds = idleSleepSeconds := by decide

/-- Claim C8, code evaluation: loading the ledger from a missing file or
from a file whose text fails JSON decoding yields the empty ledger, but a
file whose bytes are not valid UTF-8 makes json.load raise a
UnicodeDecodeError that the except clause (which names only
json.JSONDecodeError) does not catch, so the load is fatal for that
content instead of yielding an empty ledger. -/
theorem load_ledger_fatal_on_undecodable_bytes :
    load_processed_hashes FileRead.missing = Except.ok []
  ∧ load_processed_hashes FileRead.jsonDecodeError = Except.ok []
  ∧ load_processed_hashes FileRead.undecodableBytes
      = Except.error PyExc.unicodeDecodeError :=
  ⟨rfl, rfl, rfl⟩

/-- Claim C1, code evaluation: the flush tail of main behaves identically
whether the destination write raised or succeeded, because append_rows
swallows every exception; in particular, after a failed write the pending
fingerprint of a never-written row is still merged into the ledger and
persisted, instead of the flush being abandoned with the ledger left
unpersisted. -/
theorem ledger_persisted_despite_failed_write :
    (∀ (e : PyExc) (processed pending : Ledger),
        flushPersist (Except.error e) processed pending
          = flushPersist (Except.ok ()) processed pending)
  ∧ lfind (flushPersist (Except.error PyExc.httpError) [] [("k", ["h1"])]).2 "k"
      = some ["h1"] :=
  ⟨fun _ _ _ => rfl, by decide⟩

/-- Claim C4, counterexample: for a source whose header has two columns
(the first source with new rows, so the captured destination header is
that header plus the company-name column, three columns wide), the code
pads a one-cell row to the source header length two and then appends the
name, not to the captured destination header column count three as the
claim states. -/
theorem padding_not_to_dest_header_count :
    padRow ["a", "b"] ["x"] "Acme" = ["x", "", "Acme"]
  ∧ padRow ["a", "b"] ["x"] "Acme"
      ≠ specPadRow (["a", "b"] ++ ["Company Name"]) ["x"] "Acme" := by
  decide

/-- Claim C4, amended: every new row is padded on the right with empty
cells up to the length of the header row of its own source sheet (not up
to the captured destination header column count), a row already at or
beyond that length is unchanged, and then the display name of the source
is appended as the trailing cell. -/
theorem padding_to_own_header_length (header row : Row) (name : String) :
    (padRow header row name).length = max header.length row.length + 1
  ∧ (padRow header row name).take row.length = row
  ∧ (padRow header row name).getLast? = some name
  ∧ (header.length ≤ row.length → padRow header row name = row ++ [name]) := by
  refine ⟨?_, ?_, ?_, ?_⟩
  · simp [padRow]
    omega
  · rw [padRow, List.append_assoc]
    exact take_len_append row _
  · rw [padRow]
    exact List.getLast?_concat _
  · intro h
    simp [padRow, Nat.sub_eq_zero_of_le h]

/-- Witness for the amended claim C4 at a concrete input with a row longer
than its source header. -/
theorem padding_to_own_header_length_witness :
    padRow ["a"] ["x", "y"] "n" = ["x", "y"] ++ ["n"] :=
  (padding_to_own_header_length ["a"] ["x", "y"] "n").2.2.2 (by decide)

/-- Claim C5, confirmed: flushing a non-empty batch of M rows into a
destination that already holds a header row plus N data rows inserts M
blank rows right below the header and writes the batch into them, so the
result is the header, then the batch in its own order, then the N original
rows shifted down by M. -/
theorem flush_prepends_below_header (header : Row) (old batch : List Row)
    (hb : batch ≠ []) :
    append_rows_grid (header :: old) batch = header :: (batch ++ old) := by
  cases batch with
  | nil => exact absurd rfl hb
  | cons b bs =>
    unfold append_rows_grid insertBlankRows overwriteRows
    simp [drop_replicate_append]
    rw [Nat.add_comm 1 (bs.length + 1), List.drop_succ_cons]
    exact drop_replicate_append _ _

/-- Witness for claim C5 at a concrete destination of a header and two old
rows receiving a batch of two rows. -/
theorem flush_prepends_below_header_witness :
    append_rows_grid ([["h"]] ++ [["o1"], ["o2"]]) [["n1"], ["n2"]]
      = [["h"]] ++ ([["n1"], ["n2"]] ++ [["o1"], ["o2"]]) :=
  flush_prepends_below_header ["h"] [["o1"], ["o2"]] [["n1"], ["n2"]] (by decide)

/-- Claim C2, counterexample: a fetch that returns the same unseen data row
twice produces two pending fingerprints and two pending-batch entries for
one distinct fingerprint, because the classification only consults the
persisted set and nothing records the first occurrence within the fetch. -/
theorem duplicate_rows_flagged_twice :
    lview (processSource rowStr 2 1 dupSrc (initState [])).1.pending "a" = ["r", "r"]
  ∧ (processSource rowStr 2 1 dupSrc (initState [])).1.batch
      = [["r", "A"], ["r", "A"]] := by
  decide

/-- Claim C2, amended: within one fetch the rows are classified against the
persisted set only: the newly found rows are exactly the data rows whose
fingerprint is absent from the persisted set, every occurrence kept in
order, and the pending fingerprints are exactly their fingerprints, so k
occurrences of one absent fingerprint yield k pending-batch entries and k
pending fingerprints rather than one. -/
theorem pending_flags_every_occurrence (fp : Row → String) (existing : List String)
    (data : List Row) :
    classify fp existing data
      = (data.filter (fun r => decide (fp r ∉ existing)),
         (data.filter (fun r => decide (fp r ∉ existing))).map fp) :=
  classify_spec fp existing data

/-- Claim C10, confirmed: the fingerprint digests the plain concatenation
of the cell values, so the distinct rows [ab, empty] and [a, b] have equal
concatenations and receive the same fingerprint under every digest
function; consequently, once the fingerprint of one of them is in the
persisted set, the other is classified as already delivered. -/
theorem concatenation_fingerprint_collision :
    (["ab", ""] : Row) ≠ ["a", "b"]
  ∧ (∀ digest : String → String,
      get_row_hash digest ["ab", ""] = get_row_hash digest ["a", "b"])
  ∧ (∀ (digest : String → String) (existing : List String),
      get_row_hash digest ["a", "b"] ∈ existing →
      classify (get_row_hash digest) existing [["ab", ""]] = ([], [])) := by
  have hjoin : rowStr ["ab", ""] = rowStr ["a", "b"] := by decide
  refine ⟨by decide, fun digest => ?_, fun digest existing hmem => ?_⟩
  · simp [get_row_hash, hjoin]
  · have heq : get_row_hash digest ["ab", ""] = get_row_hash digest ["a", "b"] := by
      simp [get_row_hash, hjoin]
    unfold classify
    simp [heq, hmem]

/-- Witness for claim C10 with the identity digest and a ledger holding
the shared concatenation. -/
theorem concatenation_fingerprint_collision_witness :
    classify (get_row_hash id) ["ab"] [["ab", ""]] = ([], []) :=
  concatenation_fingerprint_collision.2.2 id ["ab"] (by decide)

/- Catalog column discovery. -/

theorem findColIdx_eq_none (name : String) (headers : List String)
    (h : ∀ x ∈ headers, x.trim ≠ name) : ∀ i, findColIdx name headers i = none := by
  induction headers with
  | nil => intro i; rfl
  | cons hd tl ih =>
    intro i
    have htl : ∀ x ∈ tl, x.trim ≠ name := fun x hx => h x (List.mem_cons_of_mem _ hx)
    simp [findColIdx, ih htl, h hd (List.mem_cons_self _ _)]

/-- Claim C7, confirmed: when the master header row lacks the exact
(stripped) Company column name, or lacks the exact source URL column name,
the catalog comes back empty regardless of the data rows and of how URLs
would be extracted, and the consolidation cycle over an empty catalog
emits no events and leaves the ledger file untouched, so no destination
mutation occurs for that cycle. -/
theorem missing_column_fails_closed (extractUrl : String → String)
    (headers : List String) (values : List (List String))
    (fp : Row → String) (l0 : Ledger)
    (h : (∀ x ∈ headers, x.trim ≠ COMPANY_COLUMN_NAME)
       ∨ (∀ x ∈ headers, x.trim ≠ URL_COLUMN_NAME)) :
    get_source_sheet_urls_model extractUrl headers values = []
  ∧ (runCycle fp [] l0).2 = [] ∧ (runCycle fp [] l0).1.file = l0 := by
  refine ⟨?_, rfl, rfl⟩
  rcases h with h | h
  · unfold get_source_sheet_urls_model
    rw [findColIdx_eq_none _ _ h 0]
  · unfold get_source_sheet_urls_model
    rw [findColIdx_eq_none _ _ h 0]
    cases findColIdx COMPANY_COLUMN_NAME headers 0 <;> rfl

/-- Witness for claim C7 at a concrete master sheet whose header row is
empty, so it holds no Company column. -/
theorem missing_column_fails_closed_witness :
    get_source_sheet_urls_model (fun _ => "") [] [["Acme", "x"]] = [] :=
  (missing_column_fails_closed (fun _ => "") [] [["Acme", "x"]]
    rowStr [] (Or.inl (by simp))).1

/-- Claim C3, counterexample: with two sources, the first contributing one
new row and the second (and last) having only an already-delivered row,
the cycle ends with the source list exhausted and a non-empty pending
batch, yet the trace holds no destination write and no persistence: the
batch-write block is skipped by the continue taken for a source without
new rows, so a flush does not occur whenever the batch is non-empty at
exhaustion. -/
theorem no_flush_at_exhaustion :
    (runCycle rowStr twoSrcs twoSrcsLedger).1.batch = [["r", "A"]]
  ∧ (runCycle rowStr twoSrcs twoSrcsLedger).2 = [Event.foundNew 1 1] := by
  decide

/-- Claim C3, amended: processing the source at 1-based index i of n emits
a destination write exactly when the source is resolved, has data rows, at
least one data row is new against the persisted set, and i is a multiple
of 25 or equals n (the pending batch is then automatically non-empty);
sources that are skipped or yield no new rows never trigger a flush, even
at list exhaustion.  Moreover, for sixty sources each contributing exactly
one new row, destination writes happen after sources 25, 50 and 60, each
immediately followed by a ledger persistence. -/
theorem flush_trigger_and_sixty_sources :
    (∀ (fp : Row → String) (n i : Nat) (s : SourceSheet) (st : LoopState),
      (∃ b, Event.write i b ∈ (processSource fp n i s st).2) ↔
        (s.resolved = true ∧ 1 < s.fetched.length
          ∧ (classify fp (lview st.processed s.key) s.fetched.tail).1 ≠ []
          ∧ (i % 25 = 0 ∨ i = n)))
  ∧ flushTags (runCycle rowStr scen60 []).2
      = [(0, 25), (1, 25), (0, 50), (1, 50), (0, 60), (1, 60)] := by
  constructor
  · intro fp n i s st
    by_cases hres : s.resolved = true
    · by_cases hlen : s.fetched.length ≤ 1
      · constructor
        · rintro ⟨b, hb⟩
          rw [processSource_skip_short fp n i s st hres hlen] at hb
          simp at hb
        · rintro ⟨-, h2, -, -⟩
          omega
      · by_cases hne : (classify fp (lview st.processed s.key) s.fetched.tail).1 = []
        · constructor
          · rintro ⟨b, hb⟩
            rw [processSource_noNew fp n i s st hres hlen hne] at hb
            simp at hb
          · rintro ⟨-, -, h3, -⟩
            exact absurd hne h3
        · by_cases hcond : i % 25 = 0 ∨ i = n
          · constructor
            · intro hw
              exact ⟨hres, by omega, hne, hcond⟩
            · intro hw
              refine ⟨st.batch
                  ++ (classify fp (lview st.processed s.key) s.fetched.tail).1.map
                       fun row => padRow (s.fetched.headD []) row s.name, ?_⟩
              rw [processSource_new_flush fp n i s st hres hlen hne hcond]
              by_cases hp : st.prepared <;> simp [hp]
          · constructor
            · rintro ⟨b, hb⟩
              rw [processSource_new_noflush fp n i s st hres hlen hne hcond] at hb
              simp at hb
            · rintro ⟨-, -, -, h4⟩
              exact absurd h4 hcond
    · have hres2 : s.resolved = false := by
        revert hres
        cases s.resolved <;> simp
      constructor
      · rintro ⟨b, hb⟩
        rw [processSource_skip_unresolved fp n i s st hres2] at hb
        simp at hb
      · rintro ⟨h1, -, -, -⟩
        exact absurd h1 hres
  · decide

/- Cycle-level invariants used for the idempotence analysis. -/

theorem classify_snd_map (fp : Row → String) (existing : List String) (data : List Row) :
    (classify fp existing data).2 = (classify fp existing data).1.map fp := by
  rw [classify_spec]

theorem mem_lview_lextend_of_mem (l : Ledger) (k k2 : String) (hs : List String)
    (h : String) (hm : h ∈ lview l k2) : h ∈ lview (lextend l k hs) k2 := by
  by_cases hk : k2 = k
  · subst hk
    rw [lview_lextend_self]
    exact List.mem_append_left _ hm
  · rw [lview_lextend_ne _ _ _ _ hk]
    exact hm

/-- Invariant carried through one cycle: the in-memory ledger and the file
agree on every per-key view (the in-memory copy only ever adds empty
entries between saves, and every save writes the whole dictionary), and an
empty pending batch means no pending fingerprint is waiting (batch rows
and pending fingerprints are added together and reset together). -/
def CycleInv (st : LoopState) : Prop :=
  (∀ k, lview st.processed k = lview st.file k)
  ∧ (st.batch = [] → ∀ k, lview st.pending k = [])

theorem processSource_invariants (fp : Row → String) (n i : Nat) (s : SourceSheet)
    (st : LoopState) (hInv : CycleInv st) :
    CycleInv (processSource fp n i s st).1
  ∧ (∀ (k : String) (h : String),
        (h ∈ lview st.processed k ∨ h ∈ lview st.pending k) →
        (h ∈ lview (processSource fp n i s st).1.processed k
          ∨ h ∈ lview (processSource fp n i s st).1.pending k))
  ∧ (s.resolved = true → 1 < s.fetched.length →
      ∀ r ∈ s.fetched.tail,
        fp r ∈ lview (processSource fp n i s st).1.processed s.key
        ∨ fp r ∈ lview (processSource fp n i s st).1.pending s.key) := by
  by_cases hres : s.resolved = true
  · by_cases hlen : s.fetched.length ≤ 1
    · rw [processSource_skip_short fp n i s st hres hlen]
      exact ⟨hInv, fun k h hm => hm, fun _ h2 => absurd h2 (by omega)⟩
    · have hcover0 : ∀ r ∈ s.fetched.tail,
          fp r ∈ lview st.processed s.key
          ∨ fp r ∈ (classify fp (lview st.processed s.key) s.fetched.tail).2 :=
        fun r hr => classify_cover fp _ _ r hr
      by_cases hne : (classify fp (lview st.processed s.key) s.fetched.tail).1 = []
      · rw [processSource_noNew fp n i s st hres hlen hne]
        have h2 : (classify fp (lview st.processed s.key) s.fetched.tail).2 = [] := by
          rw [classify_snd_map, hne]
          rfl
        refine ⟨⟨fun k => ?_, fun hb k => ?_⟩, fun k h hm => ?_, fun _ _ r hr => ?_⟩
        · rw [lview_lensure]
          exact hInv.1 k
        · by_cases hk : k = s.key
          · subst hk
            rw [lview_lextend_self, lview_lensure, h2, List.append_nil]
            exact hInv.2 hb s.key
          · rw [lview_lextend_ne _ _ _ _ hk, lview_lensure]
            exact hInv.2 hb k
        · rcases hm with hm | hm
          · left
            rw [lview_lensure]
            exact hm
          · right
            apply mem_lview_lextend_of_mem
            rw [lview_lensure]
            exact hm
        · rcases hcover0 r hr with hc | hc
          · left
            rw [lview_lensure]
            exact hc
          · right
            rw [lview_lextend_self]
            exact List.mem_append_right _ hc
      · by_cases hcond : i % 25 = 0 ∨ i = n
        · rw [processSource_new_flush fp n i s st hres hlen hne hcond]
          refine ⟨⟨fun k => rfl, fun _ k => rfl⟩, fun k h hm => ?_, fun _ _ r hr => ?_⟩
          · left
            rcases hm with hm | hm
            · apply mem_lview_mergePending_left
              rw [lview_lensure]
              exact hm
            · apply mem_lview_mergePending_right
              apply mem_lview_lextend_of_mem
              rw [lview_lensure]
              exact hm
          · left
            rcases hcover0 r hr with hc | hc
            · apply mem_lview_mergePending_left
              rw [lview_lensure]
              exact hc
            · apply mem_lview_mergePending_right
              rw [lview_lextend_self]
              exact List.mem_append_right _ hc
        · rw [processSource_new_noflush fp n i s st hres hlen hne hcond]
          have hmapne : (classify fp (lview st.processed s.key) s.fetched.tail).1.map
              (fun row => padRow (s.fetched.headD []) row s.name) ≠ [] := by
            simp [hne]
          refine ⟨⟨fun k => ?_, fun hb k => ?_⟩, fun k h hm => ?_, fun _ _ r hr => ?_⟩
          · rw [lview_lensure]
            exact hInv.1 k
          · exact absurd (List.append_eq_nil.mp hb).2 hmapne
          · rcases hm with hm | hm
            · left
              rw [lview_lensure]
              exact hm
            · right
              apply mem_lview_lextend_of_mem
              rw [lview_lensure]
              exact hm
          · rcases hcover0 r hr with hc | hc
            · left
              rw [lview_lensure]
              exact hc
            · right
              rw [lview_lextend_self]
              exact List.mem_append_right _ hc
  · have hres2 : s.resolved = false := by
      revert hres
      cases s.resolved <;> simp
    rw [processSource_skip_unresolved fp n i s st hres2]
    exact ⟨hInv, fun k h hm => hm, fun h1 => absurd h1 hres⟩

theorem runFrom_invariants (fp : Row → String) (n : Nat) :
    ∀ (srcs : List SourceSheet) (i : Nat) (st : LoopState), CycleInv st →
    CycleInv (runFrom fp n i srcs st).1
  ∧ (∀ (k h : String), (h ∈ lview st.processed k ∨ h ∈ lview st.pending k) →
        (h ∈ lview (runFrom fp n i srcs st).1.processed k
          ∨ h ∈ lview (runFrom fp n i srcs st).1.pending k))
  ∧ (∀ s ∈ srcs, s.resolved = true → 1 < s.fetched.length →
      ∀ r ∈ s.fetched.tail,
        fp r ∈ lview (runFrom fp n i srcs st).1.processed s.key
        ∨ fp r ∈ lview (runFrom fp n i srcs st).1.pending s.key) := by
  intro srcs
  induction srcs with
  | nil =>
    intro i st h
    exact ⟨h, fun k h2 hm => hm, fun s hs => absurd hs (List.not_mem_nil s)⟩
  | cons s rest ih =>
    intro i st hInv
    obtain ⟨p1, p2, p3⟩ := processSource_invariants fp n i s st hInv
    obtain ⟨g1, g2, g3⟩ := ih (i + 1) (processSource fp n i s st).1 p1
    rw [runFrom_cons]
    refine ⟨g1, fun k h hm => g2 k h (p2 k h hm), ?_⟩
    intro t ht hrest hlen2 r hr
    rcases List.mem_cons.mp ht with rfl | ht2
    · exact g2 t.key (fp r) (p3 hrest hlen2 r hr)
    · exact g3 t ht2 hrest hlen2 r hr

theorem runFrom_quiet (fp : Row → String) (n : Nat) :
    ∀ (srcs : List SourceSheet) (i : Nat) (st : LoopState),
    (∀ s ∈ srcs, s.resolved = true → 1 < s.fetched.length →
      ∀ r ∈ s.fetched.tail, fp r ∈ lview st.processed s.key) →
    (runFrom fp n i srcs st).2 = []
  ∧ (∀ k, lview (runFrom fp n i srcs st).1.processed k = lview st.processed k) := by
  intro srcs
  induction srcs with
  | nil => intro i st h; exact ⟨rfl, fun k => rfl⟩
  | cons s rest ih =>
    intro i st hcov
    have hcovRest : ∀ t ∈ rest, t.resolved = true → 1 < t.fetched.length →
        ∀ r ∈ t.fetched.tail, fp r ∈ lview st.processed t.key :=
      fun t ht => hcov t (List.mem_cons_of_mem _ ht)
    by_cases hres : s.resolved = true
    · by_cases hlen : s.fetched.length ≤ 1
      · rw [runFrom_cons, processSource_skip_short fp n i s st hres hlen]
        obtain ⟨q1, q2⟩ := ih (i + 1) st hcovRest
        exact ⟨by simp [q1], q2⟩
      · have hall : ∀ r ∈ s.fetched.tail, fp r ∈ lview st.processed s.key :=
          hcov s (List.mem_cons_self _ _) hres (by omega)
        have hcl : classify fp (lview st.processed s.key) s.fetched.tail = ([], []) :=
          classify_eq_nil fp _ _ hall
        have hne1 : (classify fp (lview st.processed s.key) s.fetched.tail).1 = [] := by
          rw [hcl]
        rw [runFrom_cons, processSource_noNew fp n i s st hres hlen hne1]
        obtain ⟨q1, q2⟩ := ih (i + 1)
          ({ st with processed := lensure st.processed s.key,
                     pending := lextend (lensure st.pending s.key) s.key
                       (classify fp (lview st.processed s.key) s.fetched.tail).2 })
          (fun t ht h1 h2 r hr => by
            show fp r ∈ lview (lensure st.processed s.key) t.key
            rw [lview_lensure]
            exact hcovRest t ht h1 h2 r hr)
        refine ⟨by simp [q1], fun k => ?_⟩
        rw [q2 k]
        exact lview_lensure st.processed s.key k
    · have hres2 : s.resolved = false := by
        revert hres
        cases s.resolved <;> simp
      rw [runFrom_cons, processSource_skip_unresolved fp n i s st hres2]
      obtain ⟨q1, q2⟩ := ih (i + 1) st hcovRest
      exact ⟨by simp [q1], q2⟩

/-- Claim C6, counterexample: twenty-seven unchanged sources, where the
first twenty-five each contribute one new row (flushed and persisted after
source 25), source 26 contributes one new row after that flush, and the
last source has only an already-delivered row.  The first cycle really
writes and persists once, but ends on a source without new rows, so the
trailing batch of source 26 is discarded unwritten and its fingerprint
never persisted; the second cycle, started from the ledger file the first
cycle left behind, classifies one row as new instead of zero. -/
theorem second_cycle_not_idempotent :
    flushTags (runCycle rowStr lateSrcs lateSrcsLedger).2 = [(0, 25), (1, 25)]
  ∧ (runCycle rowStr lateSrcs ((runCycle rowStr lateSrcs lateSrcsLedger).1.file)).2
      = [Event.foundNew 26 1] := by
  decide

/-- Claim C6, amended: provided the first cycle ends with an empty pending
batch (every batch of new rows it accumulated was flushed), a second cycle
over unchanged source rows, starting from the ledger file the first cycle
left behind, classifies zero rows as new and performs no destination
write: its event trace is empty. -/
theorem second_cycle_quiescent (fp : Row → String) (srcs : List SourceSheet)
    (l0 : Ledger) (hb : (runCycle fp srcs l0).1.batch = []) :
    (runCycle fp srcs ((runCycle fp srcs l0).1.file)).2 = [] := by
  obtain ⟨hInv1, hmono, hcov⟩ := runFrom_invariants fp srcs.length srcs 1 (initState l0)
    ⟨fun k => rfl, fun _ k => rfl⟩
  have hfile : ∀ s ∈ srcs, s.resolved = true → 1 < s.fetched.length →
      ∀ r ∈ s.fetched.tail,
        fp r ∈ lview (runFrom fp srcs.length 1 srcs (initState l0)).1.file s.key := by
    intro s hs h1 h2 r hr
    rcases hcov s hs h1 h2 r hr with hc | hc
    · rw [← hInv1.1 s.key]
      exact hc
    · rw [hInv1.2 hb s.key] at hc
      simp at hc
  exact (runFrom_quiet fp srcs.length srcs 1
    (initState ((runCycle fp srcs l0).1.file))
    (fun s hs h1 h2 r hr => hfile s hs h1 h2 r hr)).1

/-- Witness for the amended claim C6: one source with one new row; the
first cycle flushes at the end of the list, so its final pending batch is
empty, and the second cycle from the persisted file is silent. -/
theorem second_cycle_quiescent_witness :
    (runCycle rowStr oneSrc ((runCycle rowStr oneSrc []).1.file)).2 = [] :=
  second_cycle_quiescent rowStr oneSrc [] (by decide)
